import Mathlib

/-!
Verification of the deduplicating ingestion pipeline in
`scripts/Texting_Theory_Scraper.py`.

The Python source is shallowly embedded: pure helper functions become Lean
functions on `String` / `List Char`; the network (`requests.get`) is an
explicit oracle `String → Option Response` (`none` models a transport error,
i.e. `raise_for_status` or a network exception); the SHA-256 digest is an
abstract parameter `List Nat → String` (the claims only use that equal bytes
give equal digests); the filesystem is an association list from paths to
contents.  Progress printing and the pacing `time.sleep` are I/O-only and are
not modelled.
-/

namespace Scraper

/-! ### Models of the Python string primitives used by the script -/

/-- Python `s.startswith(t)`. -/
def startsWithStr (s t : String) : Bool := t.data.isPrefixOf s.data

/-- Python `s.endswith(t)`. -/
def endsWithStr (s t : String) : Bool := t.data.isSuffixOf s.data

/-- Python `s.lower()` (ASCII; the script only lowercases hosts, schemes and
content types, which are ASCII). -/
def lowerStr (s : String) : String := String.mk (s.data.map Char.toLower)

/-- Auxiliary scan for Python substring containment `t in s`. -/
def strContainsSubAux (t : List Char) : List Char → Bool
  | [] => t.isPrefixOf []
  | c :: rest => t.isPrefixOf (c :: rest) || strContainsSubAux t rest

/-- Python `t in s` (substring containment). -/
def strContainsSub (s t : String) : Bool := strContainsSubAux t.data s.data

/-- Character-level model of Python `s.replace("&amp;", "&")`: leftmost
non-overlapping matches, scanning continues after each replacement. -/
def replaceAmpChars : List Char → List Char
  | '&' :: 'a' :: 'm' :: 'p' :: ';' :: rest => '&' :: replaceAmpChars rest
  | c :: rest => c :: replaceAmpChars rest
  | [] => []

/-- Python `s.replace("&amp;", "&")`. -/
def replaceAmp (s : String) : String := String.mk (replaceAmpChars s.data)

/-- Split a character list at the first occurrence of `c`: returns the part
before it and, when found, the part after it. -/
def splitFirst (cs : List Char) (c : Char) : List Char × Option (List Char) :=
  match cs with
  | [] => ([], none)
  | x :: xs =>
    if x = c then ([], some xs)
    else
      let (a, b) := splitFirst xs c
      (x :: a, b)

/-! ### Model of `urllib.parse.urlparse`

Only the fields the script reads (`scheme`, `netloc`, `path`) plus the query
split.  `params` (`;`) handling is omitted: none of the URLs the script deals
with use the obsolete params field.  Percent-decoding (`unquote`) is modelled
byte-wise, which is exact for ASCII results; multi-byte UTF-8 sequences are
not reassembled (the script only uses `unquote` on ASCII image basenames).
-/

structure UrlParts where
  scheme : String
  netloc : String
  path : String
  query : String
deriving Repr, DecidableEq

/-- Valid URL scheme name: a letter followed by letters, digits, `+`, `-`, `.`
(CPython's check in `urlsplit`). -/
def isSchemeName (cs : List Char) : Bool :=
  match cs with
  | [] => false
  | c :: rest =>
    c.isAlpha && rest.all (fun x => x.isAlpha || x.isDigit || x = '+' || x = '-' || x = '.')

/-- Take the netloc: characters up to the next `/`, `?` or `#`. -/
def takeNetloc : List Char → List Char × List Char
  | [] => ([], [])
  | c :: rest =>
    if c = '/' || c = '?' || c = '#' then ([], c :: rest)
    else
      let (a, b) := takeNetloc rest
      (c :: a, b)

/-- Model of `urllib.parse.urlparse` restricted to scheme / netloc / path /
query (fragment dropped). -/
def urlparse (u : String) : UrlParts :=
  let (noFrag, _) := splitFirst u.data '#'
  let (noQuery, q) := splitFirst noFrag '?'
  let query := String.mk ((q.getD []))
  let (schemeCs, rest) :=
    match splitFirst noQuery ':' with
    | (pre, some post) => if isSchemeName pre then (pre, post) else ([], noQuery)
    | (_, none) => ([], noQuery)
  let scheme := lowerStr (String.mk schemeCs)
  match rest with
  | '/' :: '/' :: tail =>
    let (netloc, pathCs) := takeNetloc tail
    { scheme := scheme, netloc := String.mk netloc, path := String.mk pathCs, query := query }
  | _ => { scheme := scheme, netloc := "", path := String.mk rest, query := query }

/-- Hex digit value, for percent-decoding. -/
def hexVal (c : Char) : Option Nat :=
  if '0' ≤ c ∧ c ≤ '9' then some (c.toNat - 48)
  else if 'a' ≤ c ∧ c ≤ 'f' then some (c.toNat - 87)
  else if 'A' ≤ c ∧ c ≤ 'F' then some (c.toNat - 55)
  else none

/-- Percent-decoding scan: `%XY` with hex digits becomes the byte `16*X+Y`;
an invalid escape is kept literally (as in `urllib.parse.unquote`). -/
def unquoteChars : List Char → List Char
  | '%' :: a :: b :: rest =>
    match hexVal a, hexVal b with
    | some x, some y => Char.ofNat (16 * x + y) :: unquoteChars rest
    | _, _ => '%' :: unquoteChars (a :: b :: rest)
  | c :: rest => c :: unquoteChars rest
  | [] => []

/-- Model of `urllib.parse.unquote` (ASCII-exact, see module comment). -/
def unquote (s : String) : String := String.mk (unquoteChars s.data)

/-- Characters after the last `/` of a path, reversed-scan helper. -/
def takeUntilSlashRev : List Char → List Char
  | [] => []
  | c :: rest => if c = '/' then [] else c :: takeUntilSlashRev rest

/-- Model of `os.path.basename`: the part of the path after the last `/`. -/
def basenameOf (p : String) : String :=
  String.mk (takeUntilSlashRev p.data.reverse).reverse

/-- Last index of `c` in a character list. -/
def lastIdxOf : List Char → Char → Option Nat
  | [], _ => none
  | x :: xs, c =>
    match lastIdxOf xs c with
    | some i => some (i + 1)
    | none => if x = c then some 0 else none

/-- Model of `os.path.splitext`: split at the last `.` that is preceded by at
least one non-dot character after the last `/`. -/
def splitext (p : String) : String × String :=
  let cs := p.data
  let start : Nat :=
    match lastIdxOf cs '/' with
    | some i => i + 1
    | none => 0
  match lastIdxOf cs '.' with
  | some d =>
    if start ≤ d &&
        ((List.range d).any fun j => decide (start ≤ j) && (cs.getD j '.' != '.')) then
      (String.mk (cs.take d), String.mk (cs.drop d))
    else (p, "")
  | none => (p, "")

/-! ### The script's own helpers -/

/-- `REDDIT_IMAGE_HOSTS` from the script. -/
def REDDIT_IMAGE_HOSTS : List String := ["i.redd.it", "preview.redd.it", "i.reddituploads.com"]

/-- `_normalize_reddit_image_url`: keep only scheme, host and path for reddit
image hosts, to collapse size/preview query variants. -/
def _normalize_reddit_image_url (u : String) : String :=
  if REDDIT_IMAGE_HOSTS.contains (lowerStr (urlparse u).netloc) then
    (urlparse u).scheme ++ "://" ++ lowerStr (urlparse u).netloc ++ (urlparse u).path
  else u

/-- `filename_from_url`: basename of the URL path, percent-decoded, with
`"image"` as fallback for an empty result. -/
def filename_from_url (url : String) : String :=
  let path := (urlparse url).path
  let name := basenameOf path
  let d := unquote name
  if d = "" then "image" else d

/-- `infer_extension_from_headers`: choose an extension from the Content-Type
header value, with a fallback. -/
def infer_extension_from_headers (contentTypeHeader : String) (fallback : String) : String :=
  let ctype := lowerStr contentTypeHeader
  if strContainsSub ctype "image/png" then ".png"
  else if strContainsSub ctype "image/jpeg" || strContainsSub ctype "image/jpg" then ".jpg"
  else if strContainsSub ctype "image/gif" then ".gif"
  else if strContainsSub ctype "image/webp" then ".webp"
  else fallback

/-! ### Submissions and the source resolver -/

/-- The `"s"` (source representation) entry of a media-metadata item:
`meta["s"]["u"]` when present. -/
structure SourceRep where
  u : Option String
deriving Repr, DecidableEq

/-- One value of `submission.media_metadata`; `s := none` models a missing or
null `"s"` key. -/
structure MediaMeta where
  s : Option SourceRep
deriving Repr, DecidableEq

/-- One entry of `submission.gallery_data["items"]`. -/
structure GalleryItem where
  media_id : String
deriving Repr, DecidableEq

/-- One entry of `submission.preview["images"]`; `sourceUrl` models
`img.get("source", \x7b\x7d).get("url")`. -/
structure PrevImage where
  sourceUrl : Option String
deriving Repr, DecidableEq

/-- A feed item, exposing exactly the attributes the script reads.
`media_metadata` is the (possibly empty) mapping from media id to metadata;
`gallery_data := none` models a missing/null `gallery_data` (whose
subscripting raises and is swallowed by the `try`); `url` is
`submission.url or ""`; `preview := none` models a missing/falsy preview or a
preview without an `"images"` key. -/
structure Submission where
  id : String
  is_gallery : Bool
  media_metadata : List (String × MediaMeta)
  gallery_data : Option (List GalleryItem)
  url : String
  preview : Option (List PrevImage)
deriving Repr, DecidableEq

/-- `(meta.get("s") or \x7b\x7d).get("u")` for the item's media id. -/
def gallerySrc (sub : Submission) (it : GalleryItem) : Option String :=
  match ((sub.media_metadata.lookup it.media_id).getD { s := none }).s with
  | some sr => sr.u
  | none => none

/-- Raw source string a single gallery item contributes (before `&amp;`
decoding): kept only when present and starting with `"http"`. -/
def itemRawSource (sub : Submission) (it : GalleryItem) : List String :=
  match gallerySrc sub it with
  | some src => if startsWithStr src "http" then [src] else []
  | none => []

/-- Raw source strings rule 1 (gallery) iterates over, in gallery order. -/
def galleryRawSources (sub : Submission) : List String :=
  if sub.is_gallery && !sub.media_metadata.isEmpty then
    match sub.gallery_data with
    | some items => items.foldr (fun it acc => itemRawSource sub it ++ acc) []
    | none => []
  else []

/-- Rule 1 of the resolver: gallery source URLs, `&amp;`-decoded. -/
def galleryUrls (sub : Submission) : List String :=
  (galleryRawSources sub).map replaceAmp

/-- The preview loop of rule 4: the first image with a source URL starting
with `"http"` contributes it (the loop `break`s after the first append). -/
def firstPreviewRaw : List PrevImage → List String
  | [] => []
  | img :: rest =>
    match img.sourceUrl with
    | some src => if startsWithStr src "http" then [src] else firstPreviewRaw rest
    | none => firstPreviewRaw rest

/-- Raw preview source string rule 4 selects (before `&amp;` decoding). -/
def previewRawSources (sub : Submission) : List String :=
  match sub.preview with
  | none => []
  | some imgs => firstPreviewRaw imgs

/-- Rule 4 of the resolver: first preview source URL, `&amp;`-decoded. -/
def previewUrls (sub : Submission) : List String :=
  (previewRawSources sub).map replaceAmp

/-- The recognised direct-image extensions of rule 3. -/
def hasImageExt (u : String) : Bool :=
  [".jpg", ".jpeg", ".png", ".gif", ".webp"].any fun e => endsWithStr u e

/-- Intra-post deduplication by canonical form, first occurrence wins. -/
def dedupUrlsAux : List String → List String → List String
  | [], _ => []
  | x :: rest, seen =>
    if _normalize_reddit_image_url x ∈ seen then dedupUrlsAux rest seen
    else x :: dedupUrlsAux rest (_normalize_reddit_image_url x :: seen)

/-- The `Normalize + de-dup` loop at the end of the resolver. -/
def dedupUrls (urls : List String) : List String := dedupUrlsAux urls []

/-- The four-rule priority chain: each `if not urls:` guard in the source
makes a later rule run exactly when every earlier rule emitted nothing, so
the chain is the first nonempty rule result (and rule 4's result, possibly
empty, when rules 1–3 all emitted nothing). -/
def ruleChain (sub : Submission) : List String :=
  if !(galleryUrls sub).isEmpty then galleryUrls sub
  else if startsWithStr sub.url "http" &&
      REDDIT_IMAGE_HOSTS.contains (lowerStr (urlparse sub.url).netloc) then [sub.url]
  else if startsWithStr (lowerStr sub.url) "http" && hasImageExt (lowerStr sub.url) then [sub.url]
  else previewUrls sub

/-- `get_image_urls_from_submission`: the four-rule priority chain followed by
canonical deduplication. -/
def get_image_urls_from_submission (sub : Submission) : List String :=
  dedupUrls (ruleChain sub)

/-! ### Download, content dedupe and the per-run pipeline (`main` loop)

`fetch : String → Option Response` is the transport oracle: `none` models a
transport failure (`raise_for_status` or a network exception — `main` treats
both the same way, logging and skipping the location).  `hashFn` abstracts
`sha256_bytes`. -/

/-- An HTTP response: the full body bytes and the `Content-Type` header value
(`""` when absent). -/
structure Response where
  body : List Nat
  contentType : String
deriving Repr, DecidableEq

/-- Extension chosen for a saved artifact: the extension of the URL-derived
basename, else inferred from the Content-Type header with `".jpg"` fallback. -/
def extForDownload (url : String) (r : Response) : String :=
  let base := filename_from_url url
  let ext := (splitext base).2
  if ext = "" then infer_extension_from_headers r.contentType ".jpg" else ext

/-- Outcome of one `download_and_dedupe` call as observed by `main`:
a raised transport error, a duplicate digest (returns `None`), or a saved
file (returns path and digest); the saved bytes are carried along. -/
inductive DlResult where
  | dlError : DlResult
  | dlDup : DlResult
  | dlSaved (fname : String) (fhash : String) (content : List Nat) : DlResult
deriving Repr, DecidableEq

/-- `download_and_dedupe`: fetch, digest, membership check against the seen
hashes, then filename derivation `post_id ++ "_" ++ idx ++ ext`. -/
def download_and_dedupe (hashFn : List Nat → String) (fetch : String → Option Response)
    (url : String) (post_id : String) (idx : Nat) (seen_hashes : List String) : DlResult :=
  match fetch url with
  | none => DlResult.dlError
  | some r =>
    let file_hash := hashFn r.body
    if file_hash ∈ seen_hashes then DlResult.dlDup
    else DlResult.dlSaved (post_id ++ "_" ++ toString idx ++ extForDownload url r) file_hash r.body

/-- Python `set.add`: insert only when absent. -/
def insertUniq (a : String) (l : List String) : List String :=
  if a ∈ l then l else a :: l

/-- In-memory run state of `main`: the two seen-sets, the files written this
run (name and bytes, in order), and the three counters. -/
structure RunState where
  seen_post_ids : List String
  seen_hashes : List String
  files : List (String × List Nat)
  downloaded : Nat
  skipped_posts : Nat
  skipped_hashes : Nat
deriving Repr, DecidableEq

/-- The inner `for i, url in enumerate(urls, start=1)` loop of `main` for one
post: each candidate either errors (skipped), is a content duplicate
(counter), or is saved (file appended, digest recorded). -/
def processCandidates (hashFn : List Nat → String) (fetch : String → Option Response)
    (pid : String) : RunState → List (Nat × String) → RunState
  | s, [] => s
  | s, (i, u) :: rest =>
    match download_and_dedupe hashFn fetch u pid i s.seen_hashes with
    | DlResult.dlError => processCandidates hashFn fetch pid s rest
    | DlResult.dlDup =>
      processCandidates hashFn fetch pid
        { s with skipped_hashes := s.skipped_hashes + 1 } rest
    | DlResult.dlSaved fname fhash content =>
      processCandidates hashFn fetch pid
        { s with files := s.files ++ [(fname, content)],
                 seen_hashes := insertUniq fhash s.seen_hashes,
                 downloaded := s.downloaded + 1 } rest

/-- `seen_post_ids.add(pid)`: mark a post as processed. -/
def markProcessed (pid : String) (s : RunState) : RunState :=
  { s with seen_post_ids := insertUniq pid s.seen_post_ids }

/-- One iteration of the `for submission in sub.new(...)` loop of `main`:
skip an already-processed post, mark a post with no candidates immediately,
otherwise attempt every candidate and mark the post afterwards. -/
def processPost (hashFn : List Nat → String) (fetch : String → Option Response)
    (s : RunState) (sub : Submission) : RunState :=
  if sub.id ∈ s.seen_post_ids then { s with skipped_posts := s.skipped_posts + 1 }
  else if (get_image_urls_from_submission sub).isEmpty then markProcessed sub.id s
  else
    markProcessed sub.id
      (processCandidates hashFn fetch sub.id s (List.enumFrom 1 (get_image_urls_from_submission sub)))

/-- Fresh run state from the loaded seen-sets. -/
def initState (posts hashes : List String) : RunState :=
  { seen_post_ids := posts, seen_hashes := hashes,
    files := [], downloaded := 0, skipped_posts := 0, skipped_hashes := 0 }

/-- One whole run of `main` over a bounded feed, starting from loaded state. -/
def runPipeline (hashFn : List Nat → String) (fetch : String → Option Response)
    (feed : List Submission) (posts hashes : List String) : RunState :=
  feed.foldl (processPost hashFn fetch) (initState posts hashes)

/-! ### Persistent state store (`load_state` / `save_state`)

The filesystem is an association list path ↦ contents; `json.load` together
with the state-blob shape is abstracted as `parse : String → Option
StoredState` (`none` = any parse failure).  `os.rename` / `os.replace` are
modelled as an atomic move that overwrites the destination. -/

/-- The persisted state blob. -/
structure StoredState where
  seen_post_ids : List String
  seen_hashes : List String
deriving Repr, DecidableEq

/-- The empty state returned when no (valid) state file exists. -/
def emptyStoredState : StoredState := { seen_post_ids := [], seen_hashes := [] }

/-- A filesystem: mapping from path to file contents. -/
def FS : Type := List (String × String)

/-- Read a file. -/
def fslookup : FS → String → Option String
  | [], _ => none
  | (a, c) :: tl, p => if a = p then some c else fslookup tl p

/-- Remove a path. -/
def fsremove : FS → String → FS
  | [], _ => []
  | (a, c) :: tl, p => if a = p then fsremove tl p else (a, c) :: fsremove tl p

/-- Write (create or overwrite) a file. -/
def fswrite (fs : FS) (p : String) (c : String) : FS := (p, c) :: fsremove fs p

/-- `os.rename` / `os.replace`: move `old` onto `new`, overwriting `new`.
A missing source leaves the filesystem unchanged (in `load_state` the failing
rename is swallowed by `except: pass`). -/
def fsrename (fs : FS) (old new : String) : FS :=
  match fslookup fs old with
  | none => fs
  | some c => fswrite (fsremove fs old) new c

/-- `load_state`: missing file gives the empty state; a file that fails to
parse is renamed to the `.corrupt` sidecar and the empty state is returned;
a parsed file is returned as-is.  Returns the state and the filesystem after
any backup rename; the function is total — no outcome raises. -/
def load_state (parse : String → Option StoredState) (statePath : String)
    (fs : FS) : StoredState × FS :=
  match fslookup fs statePath with
  | none => (emptyStoredState, fs)
  | some contents =>
    match parse contents with
    | some st => (st, fs)
    | none => (emptyStoredState, fsrename fs statePath (statePath ++ ".corrupt"))

/-- `save_state`: write the full serialization to `statePath ++ ".tmp"`, then
atomically move it onto the canonical path with `os.replace`. -/
def save_state (ser : StoredState → String) (statePath : String)
    (st : StoredState) (fs : FS) : FS :=
  fsrename (fswrite fs (statePath ++ ".tmp") (ser st)) (statePath ++ ".tmp") statePath

/-! ### Basic lemmas about the set operations and the pipeline -/

theorem mem_insertUniq_self (a : String) (l : List String) : a ∈ insertUniq a l := by
  unfold insertUniq
  split
  · assumption
  · exact List.mem_cons_self a l

theorem mem_insertUniq_of_mem (a : String) {b : String} {l : List String}
    (h : b ∈ l) : b ∈ insertUniq a l := by
  unfold insertUniq
  split
  · exact h
  · exact List.mem_cons_of_mem a h

theorem insertUniq_eq_cons {a : String} {l : List String} (h : a ∉ l) :
    insertUniq a l = a :: l := by
  unfold insertUniq
  exact if_neg h

theorem mem_insertUniq_iff {a b : String} {l : List String} :
    b ∈ insertUniq a l ↔ b = a ∨ b ∈ l := by
  unfold insertUniq
  split
  · next h => exact ⟨Or.inr, fun hb => hb.elim (fun he => he ▸ h) id⟩
  · exact List.mem_cons

theorem processCandidates_seen_post_ids (hashFn : List Nat → String)
    (fetch : String → Option Response) (pid : String) :
    ∀ (cands : List (Nat × String)) (s : RunState),
      (processCandidates hashFn fetch pid s cands).seen_post_ids = s.seen_post_ids := by
  intro cands
  induction cands with
  | nil => intro s; rfl
  | cons hd tl ih =>
    intro s
    obtain ⟨i, u⟩ := hd
    show (processCandidates hashFn fetch pid s ((i, u) :: tl)).seen_post_ids = _
    unfold processCandidates
    cases download_and_dedupe hashFn fetch u pid i s.seen_hashes with
    | dlError => exact ih s
    | dlDup => exact ih _
    | dlSaved fname fhash content => exact ih _

theorem processPost_skip (hashFn : List Nat → String) (fetch : String → Option Response)
    (s : RunState) (sub : Submission) (h : sub.id ∈ s.seen_post_ids) :
    processPost hashFn fetch s sub = { s with skipped_posts := s.skipped_posts + 1 } := by
  unfold processPost
  rw [if_pos h]

theorem processPost_mem_self (hashFn : List Nat → String) (fetch : String → Option Response)
    (s : RunState) (sub : Submission) :
    sub.id ∈ (processPost hashFn fetch s sub).seen_post_ids := by
  unfold processPost
  by_cases h1 : sub.id ∈ s.seen_post_ids
  · rw [if_pos h1]; exact h1
  · rw [if_neg h1]
    by_cases h2 : (get_image_urls_from_submission sub).isEmpty = true
    · rw [if_pos h2]; exact mem_insertUniq_self _ _
    · rw [if_neg h2]; exact mem_insertUniq_self _ _

theorem processPost_mem_mono (hashFn : List Nat → String) (fetch : String → Option Response)
    (s : RunState) (sub : Submission) {a : String} (h : a ∈ s.seen_post_ids) :
    a ∈ (processPost hashFn fetch s sub).seen_post_ids := by
  unfold processPost
  by_cases h1 : sub.id ∈ s.seen_post_ids
  · rw [if_pos h1]; exact h
  · rw [if_neg h1]
    by_cases h2 : (get_image_urls_from_submission sub).isEmpty = true
    · rw [if_pos h2]; exact mem_insertUniq_of_mem _ h
    · rw [if_neg h2]
      refine mem_insertUniq_of_mem _ ?_
      rw [processCandidates_seen_post_ids]
      exact h

theorem foldl_processPost_mem_mono (hashFn : List Nat → String)
    (fetch : String → Option Response) :
    ∀ (feed : List Submission) (s : RunState) (a : String), a ∈ s.seen_post_ids →
      a ∈ (feed.foldl (processPost hashFn fetch) s).seen_post_ids := by
  intro feed
  induction feed with
  | nil => intro s a h; exact h
  | cons hd tl ih =>
    intro s a h
    exact ih _ a (processPost_mem_mono hashFn fetch s hd h)

theorem foldl_processPost_mem_of_mem_feed (hashFn : List Nat → String)
    (fetch : String → Option Response) :
    ∀ (feed : List Submission) (s : RunState) (sub : Submission), sub ∈ feed →
      sub.id ∈ (feed.foldl (processPost hashFn fetch) s).seen_post_ids := by
  intro feed
  induction feed with
  | nil => intro s sub h; cases h
  | cons hd tl ih =>
    intro s sub h
    rcases List.mem_cons.mp h with he | ht
    · subst he
      exact foldl_processPost_mem_mono hashFn fetch tl _ _
        (processPost_mem_self hashFn fetch s sub)
    · exact ih _ sub ht

theorem foldl_processPost_all_seen (hashFn : List Nat → String)
    (fetch : String → Option Response) :
    ∀ (feed : List Submission) (s : RunState), (∀ sub ∈ feed, sub.id ∈ s.seen_post_ids) →
      feed.foldl (processPost hashFn fetch) s =
        { s with skipped_posts := s.skipped_posts + feed.length } := by
  intro feed
  induction feed with
  | nil => intro s _; rfl
  | cons hd tl ih =>
    intro s h
    rw [List.foldl_cons, processPost_skip hashFn fetch s hd (h hd (List.mem_cons_self hd tl)),
      ih { s with skipped_posts := s.skipped_posts + 1 }
        (fun sub hs => h sub (List.mem_cons_of_mem hd hs))]
    exact congrArg (fun n => { s with skipped_posts := n })
      (by show s.skipped_posts + 1 + tl.length = s.skipped_posts + (tl.length + 1); omega)

/-- Claim C1 (idempotence of the pipeline run): starting a second run from the
state produced by a first run over the same feed, the second run saves zero
new files, downloads nothing, and leaves both the processed-post set and the
content-hash set exactly as the first run left them — every feed post is
already in the processed set and is skipped by the membership check. -/
theorem pipeline_idempotent (hashFn : List Nat → String) (fetch : String → Option Response)
    (feed : List Submission) (p0 h0 : List String) :
    let s1 := runPipeline hashFn fetch feed p0 h0
    let s2 := runPipeline hashFn fetch feed s1.seen_post_ids s1.seen_hashes
    s2.files = [] ∧ s2.downloaded = 0 ∧
      s2.seen_post_ids = s1.seen_post_ids ∧ s2.seen_hashes = s1.seen_hashes := by
  intro s1 s2
  have hall : ∀ sub ∈ feed, sub.id ∈ (initState s1.seen_post_ids s1.seen_hashes).seen_post_ids := by
    intro sub hs
    exact foldl_processPost_mem_of_mem_feed hashFn fetch feed (initState p0 h0) sub hs
  have h2 : s2 = { initState s1.seen_post_ids s1.seen_hashes with
      skipped_posts := 0 + feed.length } :=
    foldl_processPost_all_seen hashFn fetch feed _ hall
  rw [h2]
  exact ⟨rfl, rfl, rfl, rfl⟩

/-! ### Lemmas about the resolver and its deduplication step -/

theorem mem_of_mem_dedupUrlsAux :
    ∀ (l seen : List String) (x : String), x ∈ dedupUrlsAux l seen → x ∈ l := by
  intro l
  induction l with
  | nil => intro seen x h; cases h
  | cons hd tl ih =>
    intro seen x h
    unfold dedupUrlsAux at h
    split at h
    · exact List.mem_cons_of_mem hd (ih _ x h)
    · rcases List.mem_cons.mp h with he | ht
      · exact he ▸ List.mem_cons_self hd tl
      · exact List.mem_cons_of_mem hd (ih _ x ht)

theorem dedupUrlsAux_eq_self :
    ∀ (l seen : List String), (∀ x ∈ l, _normalize_reddit_image_url x ∉ seen) →
      (l.map _normalize_reddit_image_url).Nodup → dedupUrlsAux l seen = l := by
  intro l
  induction l with
  | nil => intro seen _ _; rfl
  | cons hd tl ih =>
    intro seen hs hn
    rw [List.map_cons, List.nodup_cons] at hn
    unfold dedupUrlsAux
    rw [if_neg (hs hd (List.mem_cons_self hd tl))]
    congr 1
    refine ih _ ?_ hn.2
    intro x hx hmem
    rcases List.mem_cons.mp hmem with he | hseen
    · exact hn.1 (he ▸ List.mem_map.mpr ⟨x, hx, rfl⟩)
    · exact hs x (List.mem_cons_of_mem hd hx) hseen

theorem dedupUrls_eq_self {l : List String}
    (h : (l.map _normalize_reddit_image_url).Nodup) : dedupUrls l = l :=
  dedupUrlsAux_eq_self l [] (fun _ _ => List.not_mem_nil _) h

theorem dedupUrls_singleton (x : String) : dedupUrls [x] = [x] := by
  simp [dedupUrls, dedupUrlsAux]

theorem galleryRawSources_of_not_gallery {sub : Submission} (h : sub.is_gallery = false) :
    galleryRawSources sub = [] := by
  unfold galleryRawSources
  rw [h]
  rfl

theorem foldr_itemRawSource (sub : Submission) :
    ∀ (items : List GalleryItem) (srcs : List String),
      items.map (gallerySrc sub) = srcs.map some →
      (∀ x ∈ srcs, startsWithStr x "http" = true) →
      items.foldr (fun it acc => itemRawSource sub it ++ acc) [] = srcs := by
  intro items
  induction items with
  | nil =>
    intro srcs h _
    cases srcs with
    | nil => rfl
    | cons a b => simp at h
  | cons it tl ih =>
    intro srcs h hh
    cases srcs with
    | nil => simp at h
    | cons s ss =>
      rw [List.map_cons, List.map_cons] at h
      have h1 : gallerySrc sub it = some s := (List.cons.injEq _ _ _ _ ▸ h).1
      have h2 : tl.map (gallerySrc sub) = ss.map some := (List.cons.injEq _ _ _ _ ▸ h).2
      rw [List.foldr_cons, ih ss h2 (fun x hx => hh x (List.mem_cons_of_mem s hx))]
      unfold itemRawSource
      rw [h1]
      show (if startsWithStr s "http" = true then [s] else []) ++ ss = s :: ss
      rw [if_pos (hh s (List.mem_cons_self s ss))]
      rfl

theorem galleryRawSources_eq (sub : Submission) (items : List GalleryItem)
    (srcs : List String) (hg : sub.is_gallery = true)
    (hm : sub.media_metadata.isEmpty = false) (hgd : sub.gallery_data = some items)
    (hmap : items.map (gallerySrc sub) = srcs.map some)
    (hh : ∀ x ∈ srcs, startsWithStr x "http" = true) :
    galleryRawSources sub = srcs := by
  unfold galleryRawSources
  rw [hg, hm, hgd]
  exact foldr_itemRawSource sub items srcs hmap hh

/-- Claim C2 (resolver gallery priority): a gallery post whose per-item
metadata gives every gallery item an http source URL resolves to exactly the
per-item source URLs in gallery order (each with `&amp;` decoded, and assuming
the items are canonically distinct so intra-post dedup keeps them all) — the
preview structure, whatever it is, contributes nothing. -/
theorem gallery_resolver_priority (sub : Submission) (items : List GalleryItem)
    (srcs : List String) (hg : sub.is_gallery = true)
    (hm : sub.media_metadata.isEmpty = false) (hgd : sub.gallery_data = some items)
    (hmap : items.map (gallerySrc sub) = srcs.map some)
    (hh : ∀ x ∈ srcs, startsWithStr x "http" = true)
    (hne : srcs ≠ [])
    (hnodup : ((srcs.map replaceAmp).map _normalize_reddit_image_url).Nodup) :
    get_image_urls_from_submission sub = srcs.map replaceAmp := by
  have hraw : galleryRawSources sub = srcs := galleryRawSources_eq sub items srcs hg hm hgd hmap hh
  have hgal : galleryUrls sub = srcs.map replaceAmp := by
    unfold galleryUrls
    rw [hraw]
  have hnonempty : (galleryUrls sub).isEmpty = false := by
    rw [hgal]
    cases srcs with
    | nil => exact absurd rfl hne
    | cons a b => rfl
  unfold get_image_urls_from_submission ruleChain
  rw [hnonempty]
  show dedupUrls (galleryUrls sub) = srcs.map replaceAmp
  rw [hgal]
  exact dedupUrls_eq_self hnodup

/-- Modelled from the spec: the "first available preview source URL" of
§4.2 rule 4 — the source URL of the first preview image that carries one
(starting with "http") — stated independently of the code's loop shape, for
comparison with the resolver's output. -/
def specFirstPreviewSource (imgs : List PrevImage) : Option String :=
  imgs.findSome? fun img =>
    match img.sourceUrl with
    | some src => if startsWithStr src "http" then some src else none
    | none => none

theorem firstPreviewRaw_eq_spec :
    ∀ imgs : List PrevImage, firstPreviewRaw imgs = (specFirstPreviewSource imgs).toList := by
  intro imgs
  induction imgs with
  | nil => rfl
  | cons img rest ih =>
    cases himg : img.sourceUrl with
    | none =>
      simp only [firstPreviewRaw, specFirstPreviewSource, List.findSome?_cons, himg] at ih ⊢
      exact ih
    | some src =>
      by_cases hsw : startsWithStr src "http" = true
      · simp [firstPreviewRaw, specFirstPreviewSource, List.findSome?_cons, himg, hsw]
      · simp only [firstPreviewRaw, specFirstPreviewSource, List.findSome?_cons, himg,
          if_neg hsw] at ih ⊢
        exact ih

theorem specFirstPreviewSource_isSome : ∀ {imgs : List PrevImage},
    (∃ img ∈ imgs, ∃ src, img.sourceUrl = some src ∧ startsWithStr src "http" = true) →
    ∃ s, specFirstPreviewSource imgs = some s := by
  intro imgs
  induction imgs with
  | nil =>
    intro h
    obtain ⟨img, hmem, _⟩ := h
    cases hmem
  | cons i rest ih =>
    intro h
    obtain ⟨img, hmem, src, hsrc, hsw⟩ := h
    cases hi : i.sourceUrl with
    | none =>
      simp only [specFirstPreviewSource, List.findSome?_cons, hi]
      rcases List.mem_cons.mp hmem with he | ht
      · subst he
        rw [hi] at hsrc
        cases hsrc
      · exact ih ⟨img, ht, src, hsrc, hsw⟩
    | some s0 =>
      by_cases hsw0 : startsWithStr s0 "http" = true
      · exact ⟨s0, by simp [specFirstPreviewSource, List.findSome?_cons, hi, hsw0]⟩
      · have ht : img ∈ rest := by
          rcases List.mem_cons.mp hmem with he | ht
          · subst he
            rw [hi] at hsrc
            cases Option.some.inj hsrc
            exact absurd hsw hsw0
          · exact ht
        simp only [specFirstPreviewSource, List.findSome?_cons, hi]
        rw [if_neg hsw0]
        exact ih ⟨img, ht, src, hsrc, hsw⟩

/-- Claim C5 counterexample: the claim conditions on the submitted URL's
*path* not ending in a recognised image extension, but rule 3 of the code
tests the *whole* lowercased URL (`u.lower().endswith(ext)`).  At
`"https://example.com/get?f=.jpg"` — non-gallery, host not native, path
`"/get"` without a recognised extension, preview present with an available
http source URL — every condition of the claim holds, yet the resolver emits
the submitted URL (rule 3 fires on the query string), not the first preview
source URL. -/
theorem resolver_fallback_counterexample :
    (Submission.mk "p5x" false [] none "https://example.com/get?f=.jpg"
        (some [{ sourceUrl := some "https://preview.redd.it/p.jpg" }])).is_gallery = false ∧
    REDDIT_IMAGE_HOSTS.contains
      (lowerStr (urlparse "https://example.com/get?f=.jpg").netloc) = false ∧
    hasImageExt (lowerStr (urlparse "https://example.com/get?f=.jpg").path) = false ∧
    specFirstPreviewSource [{ sourceUrl := some "https://preview.redd.it/p.jpg" }] =
      some "https://preview.redd.it/p.jpg" ∧
    get_image_urls_from_submission
      (Submission.mk "p5x" false [] none "https://example.com/get?f=.jpg"
        (some [{ sourceUrl := some "https://preview.redd.it/p.jpg" }])) =
      ["https://example.com/get?f=.jpg"] ∧
    "https://example.com/get?f=.jpg" ≠ replaceAmp "https://preview.redd.it/p.jpg" :=
  ⟨rfl, by decide, by decide, by decide, by decide, by decide⟩

/-- Claim C5 amended (resolver fallback chain): a non-gallery post whose
submitted URL is not on a native image host and whose *entire lowercased URL*
(query string included — the code's `u.lower().endswith` check, not a check
of the path alone) does not end in a recognised image extension, but whose
preview structure has at least one image with an http source URL, resolves to
exactly one location: the first available preview source URL (with `&amp;`
decoded). -/
theorem resolver_fallback_chain (sub : Submission) (imgs : List PrevImage)
    (hng : sub.is_gallery = false)
    (hhost : REDDIT_IMAGE_HOSTS.contains (lowerStr (urlparse sub.url).netloc) = false)
    (hext : hasImageExt (lowerStr sub.url) = false)
    (hprev : sub.preview = some imgs)
    (havail : ∃ img ∈ imgs, ∃ src, img.sourceUrl = some src ∧ startsWithStr src "http" = true) :
    ∃ s, specFirstPreviewSource imgs = some s ∧
      get_image_urls_from_submission sub = [replaceAmp s] := by
  obtain ⟨s, hs⟩ := specFirstPreviewSource_isSome havail
  refine ⟨s, hs, ?_⟩
  have hgal : galleryUrls sub = [] := by
    unfold galleryUrls
    rw [galleryRawSources_of_not_gallery hng]
    rfl
  unfold get_image_urls_from_submission ruleChain
  rw [hgal, hhost, hext, Bool.and_false, Bool.and_false]
  show dedupUrls (previewUrls sub) = [replaceAmp s]
  unfold previewUrls previewRawSources
  rw [hprev]
  show dedupUrls (List.map replaceAmp (firstPreviewRaw imgs)) = [replaceAmp s]
  rw [firstPreviewRaw_eq_spec imgs, hs]
  exact dedupUrls_singleton _

/-- Claim C6 (canonical intra-post dedupe): two URLs on a native image host
that agree on scheme, (lowercased) host and path — i.e. differ only in their
query string — canonicalize to the same scheme+host+path form, and the
resolver's dedup step collapses them to one candidate, keeping the first
occurrence's original URL text. -/
theorem canonical_dedupe_collapse (u v : String)
    (hu : REDDIT_IMAGE_HOSTS.contains (lowerStr (urlparse u).netloc) = true)
    (hs : (urlparse v).scheme = (urlparse u).scheme)
    (hh : lowerStr (urlparse v).netloc = lowerStr (urlparse u).netloc)
    (hp : (urlparse v).path = (urlparse u).path) :
    _normalize_reddit_image_url u = _normalize_reddit_image_url v ∧
      dedupUrls [u, v] = [u] := by
  have heq : _normalize_reddit_image_url v = _normalize_reddit_image_url u := by
    unfold _normalize_reddit_image_url
    rw [hs, hh, hp, if_pos hu, if_pos hu]
  refine ⟨heq.symm, ?_⟩
  simp [dedupUrls, dedupUrlsAux, heq]

/-- Claim C7 counterexample: the resolver does NOT decode `&amp;` in every
emitted URL.  A non-gallery post on a native image host (rule 2) emits the
submitted URL verbatim, HTML-escaped ampersand included. -/
theorem amp_decode_counterexample :
    ∃ u ∈ get_image_urls_from_submission
        { id := "p7", is_gallery := false, media_metadata := [], gallery_data := none,
          url := "https://i.redd.it/x.jpg?a=1&amp;b=2", preview := none },
      strContainsSub u "&amp;" = true := by
  refine ⟨"https://i.redd.it/x.jpg?a=1&amp;b=2", by decide, by decide⟩

/-- Claim C7 amended: ampersand decoding is not a post-processing step on the
whole emitted list; it is applied only to the URLs emitted by the gallery
rule and the preview rule.  Every emitted URL is either the submitted URL
verbatim (rules 2 and 3, which may retain `&amp;`) or a gallery/preview
source string with one `&amp;`-decoding pass applied. -/
theorem amp_decode_amended (sub : Submission) (u : String)
    (hu : u ∈ get_image_urls_from_submission sub) :
    u = sub.url ∨ ∃ s, (s ∈ galleryRawSources sub ∨ s ∈ previewRawSources sub) ∧
      u = replaceAmp s := by
  have hc : u ∈ ruleChain sub := mem_of_mem_dedupUrlsAux _ _ _ hu
  unfold ruleChain at hc
  split at hc
  · unfold galleryUrls at hc
    obtain ⟨s, hsmem, he⟩ := List.mem_map.mp hc
    exact Or.inr ⟨s, Or.inl hsmem, he.symm⟩
  · split at hc
    · exact Or.inl (List.mem_singleton.mp hc)
    · split at hc
      · exact Or.inl (List.mem_singleton.mp hc)
      · unfold previewUrls at hc
        obtain ⟨s, hsmem, he⟩ := List.mem_map.mp hc
        exact Or.inr ⟨s, Or.inr hsmem, he.symm⟩

/-! ### Lemmas about downloading and per-candidate processing -/

theorem download_error (hashFn : List Nat → String) (fetch : String → Option Response)
    (url pid : String) (idx : Nat) (seen : List String) (hfu : fetch url = none) :
    download_and_dedupe hashFn fetch url pid idx seen = DlResult.dlError := by
  unfold download_and_dedupe
  rw [hfu]

theorem download_dup (hashFn : List Nat → String) (fetch : String → Option Response)
    (url pid : String) (idx : Nat) (seen : List String) (r : Response)
    (hr : fetch url = some r) (hmem : hashFn r.body ∈ seen) :
    download_and_dedupe hashFn fetch url pid idx seen = DlResult.dlDup := by
  unfold download_and_dedupe
  rw [hr]
  show (if hashFn r.body ∈ seen then DlResult.dlDup else _) = _
  rw [if_pos hmem]

theorem download_saved (hashFn : List Nat → String) (fetch : String → Option Response)
    (url pid : String) (idx : Nat) (seen : List String) (r : Response)
    (hr : fetch url = some r) (hmem : hashFn r.body ∉ seen) :
    download_and_dedupe hashFn fetch url pid idx seen =
      DlResult.dlSaved (pid ++ "_" ++ toString idx ++ extForDownload url r)
        (hashFn r.body) r.body := by
  unfold download_and_dedupe
  rw [hr]
  show (if hashFn r.body ∈ seen then DlResult.dlDup else _) = _
  rw [if_neg hmem]

theorem processCandidates_cons_error (hashFn : List Nat → String)
    (fetch : String → Option Response) (pid : String) (s : RunState) (i : Nat) (u : String)
    (rest : List (Nat × String)) (hfu : fetch u = none) :
    processCandidates hashFn fetch pid s ((i, u) :: rest) =
      processCandidates hashFn fetch pid s rest := by
  have hd := download_error hashFn fetch u pid i s.seen_hashes hfu
  simp only [processCandidates, hd]

theorem processCandidates_cons_dup (hashFn : List Nat → String)
    (fetch : String → Option Response) (pid : String) (s : RunState) (i : Nat) (u : String)
    (rest : List (Nat × String)) (r : Response) (hr : fetch u = some r)
    (hmem : hashFn r.body ∈ s.seen_hashes) :
    processCandidates hashFn fetch pid s ((i, u) :: rest) =
      processCandidates hashFn fetch pid
        { s with skipped_hashes := s.skipped_hashes + 1 } rest := by
  have hd := download_dup hashFn fetch u pid i s.seen_hashes r hr hmem
  simp only [processCandidates, hd]

theorem processCandidates_cons_saved (hashFn : List Nat → String)
    (fetch : String → Option Response) (pid : String) (s : RunState) (i : Nat) (u : String)
    (rest : List (Nat × String)) (r : Response) (hr : fetch u = some r)
    (hmem : hashFn r.body ∉ s.seen_hashes) :
    processCandidates hashFn fetch pid s ((i, u) :: rest) =
      processCandidates hashFn fetch pid
        { s with files := s.files ++ [(pid ++ "_" ++ toString i ++ extForDownload u r, r.body)],
                 seen_hashes := insertUniq (hashFn r.body) s.seen_hashes,
                 downloaded := s.downloaded + 1 } rest := by
  have hd := download_saved hashFn fetch u pid i s.seen_hashes r hr hmem
  simp only [processCandidates, hd]

theorem snd_mem_of_mem_enumFrom {α : Type} :
    ∀ (n : Nat) (l : List α) (p : Nat × α), p ∈ List.enumFrom n l → p.2 ∈ l := by
  intro n l
  induction l generalizing n with
  | nil => intro p h; cases h
  | cons hd tl ih =>
    intro p h
    rcases List.mem_cons.mp h with he | ht
    · rw [he]; exact List.mem_cons_self hd tl
    · exact List.mem_cons_of_mem hd (ih (n + 1) p ht)

theorem length_enumFrom {α : Type} :
    ∀ (n : Nat) (l : List α), (List.enumFrom n l).length = l.length := by
  intro n l
  induction l generalizing n with
  | nil => rfl
  | cons hd tl ih => simp [ih (n + 1)]

theorem processCandidates_all_dup (hashFn : List Nat → String)
    (fetch : String → Option Response) (pid : String) (b : List Nat) :
    ∀ (cands : List (Nat × String)) (s : RunState),
      (∀ p ∈ cands, ∃ r, fetch p.2 = some r ∧ r.body = b) →
      hashFn b ∈ s.seen_hashes →
      processCandidates hashFn fetch pid s cands =
        { s with skipped_hashes := s.skipped_hashes + cands.length } := by
  intro cands
  induction cands with
  | nil => intro s _ _; rfl
  | cons hd tl ih =>
    intro s hall hmem
    obtain ⟨i, u⟩ := hd
    obtain ⟨r, hr, hb⟩ := hall (i, u) (List.mem_cons_self _ _)
    rw [processCandidates_cons_dup hashFn fetch pid s i u tl r hr (hb ▸ hmem),
      ih { s with skipped_hashes := s.skipped_hashes + 1 }
        (fun p hp => hall p (List.mem_cons_of_mem _ hp)) hmem]
    exact congrArg (fun n => { s with skipped_hashes := n })
      (by show s.skipped_hashes + 1 + tl.length = s.skipped_hashes + (tl.length + 1); omega)

theorem processPost_all_dup (hashFn : List Nat → String) (fetch : String → Option Response)
    (s : RunState) (sub : Submission) (b : List Nat)
    (hns : sub.id ∉ s.seen_post_ids)
    (hall : ∀ u ∈ get_image_urls_from_submission sub, ∃ r, fetch u = some r ∧ r.body = b)
    (hmem : hashFn b ∈ s.seen_hashes) :
    processPost hashFn fetch s sub =
      { s with seen_post_ids := insertUniq sub.id s.seen_post_ids,
               skipped_hashes :=
                 s.skipped_hashes + (get_image_urls_from_submission sub).length } := by
  unfold processPost
  rw [if_neg hns]
  by_cases hurls : (get_image_urls_from_submission sub).isEmpty = true
  · rw [if_pos hurls]
    have hnil : get_image_urls_from_submission sub = [] := by
      cases h : get_image_urls_from_submission sub with
      | nil => rfl
      | cons a l => rw [h] at hurls; cases hurls
    rw [hnil]
    rfl
  · rw [if_neg hurls]
    rw [processCandidates_all_dup hashFn fetch sub.id b _ s
      (fun p hp => hall p.2 (snd_mem_of_mem_enumFrom 1 _ p hp)) hmem]
    unfold markProcessed
    rw [length_enumFrom]

theorem processPost_save_head (hashFn : List Nat → String) (fetch : String → Option Response)
    (s : RunState) (sub : Submission) (b : List Nat)
    (hns : sub.id ∉ s.seen_post_ids)
    (hall : ∀ u ∈ get_image_urls_from_submission sub, ∃ r, fetch u = some r ∧ r.body = b)
    (hne : get_image_urls_from_submission sub ≠ [])
    (hfresh : hashFn b ∉ s.seen_hashes) :
    ∃ fname, processPost hashFn fetch s sub =
      { s with seen_post_ids := insertUniq sub.id s.seen_post_ids,
               seen_hashes := hashFn b :: s.seen_hashes,
               files := s.files ++ [(fname, b)],
               downloaded := s.downloaded + 1,
               skipped_hashes :=
                 s.skipped_hashes + ((get_image_urls_from_submission sub).length - 1) } := by
  obtain ⟨u, us, hurls⟩ := List.exists_cons_of_ne_nil hne
  obtain ⟨r, hr, hb⟩ := hall u (by rw [hurls]; exact List.mem_cons_self _ _)
  subst hb
  refine ⟨sub.id ++ "_" ++ toString 1 ++ extForDownload u r, ?_⟩
  unfold processPost
  rw [if_neg hns]
  have hcond : ¬((get_image_urls_from_submission sub).isEmpty = true) := by
    rw [hurls]; exact Bool.false_ne_true
  rw [if_neg hcond, hurls]
  simp only [List.enumFrom]
  rw [processCandidates_cons_saved hashFn fetch sub.id s 1 u _ r hr hfresh]
  rw [insertUniq_eq_cons hfresh]
  rw [processCandidates_all_dup hashFn fetch sub.id r.body _ _
    (fun p hp => hall p.2 (by rw [hurls]; exact List.mem_cons_of_mem u (snd_mem_of_mem_enumFrom 2 us p hp)))
    (List.mem_cons_self _ _)]
  unfold markProcessed
  rw [length_enumFrom]
  show _ = ({ s with
    seen_post_ids := insertUniq sub.id s.seen_post_ids,
    seen_hashes := hashFn r.body :: s.seen_hashes,
    files := s.files ++ [(sub.id ++ "_" ++ toString 1 ++ extForDownload u r, r.body)],
    downloaded := s.downloaded + 1,
    skipped_hashes := s.skipped_hashes + ((u :: us).length - 1) } : RunState)
  exact congrArg (fun n => { s with
    seen_post_ids := insertUniq sub.id s.seen_post_ids,
    seen_hashes := hashFn r.body :: s.seen_hashes,
    files := s.files ++ [(sub.id ++ "_" ++ toString 1 ++ extForDownload u r, r.body)],
    downloaded := s.downloaded + 1,
    skipped_hashes := n }) (by show s.skipped_hashes + us.length = s.skipped_hashes + ((u :: us).length - 1); simp)

/-- Claim C3 (content dedupe): two fresh posts whose resolved candidate
locations all serve the same byte body result in exactly one saved file and
exactly one new digest in the content-hash set; every later fetch of those
bytes is discarded as a duplicate without writing a file. -/
theorem content_dedupe_single_file (hashFn : List Nat → String)
    (fetch : String → Option Response) (sub1 sub2 : Submission) (b : List Nat)
    (p0 h0 : List String)
    (hid : sub1.id ≠ sub2.id) (h1 : sub1.id ∉ p0) (h2 : sub2.id ∉ p0)
    (hne1 : get_image_urls_from_submission sub1 ≠ [])
    (hb1 : ∀ u ∈ get_image_urls_from_submission sub1, ∃ r, fetch u = some r ∧ r.body = b)
    (hb2 : ∀ u ∈ get_image_urls_from_submission sub2, ∃ r, fetch u = some r ∧ r.body = b)
    (hfresh : hashFn b ∉ h0) :
    (runPipeline hashFn fetch [sub1, sub2] p0 h0).files.length = 1 ∧
    (runPipeline hashFn fetch [sub1, sub2] p0 h0).seen_hashes = hashFn b :: h0 := by
  obtain ⟨fname, hs1⟩ :=
    processPost_save_head hashFn fetch (initState p0 h0) sub1 b h1 hb1 hne1 hfresh
  have hrun : runPipeline hashFn fetch [sub1, sub2] p0 h0 =
      processPost hashFn fetch (processPost hashFn fetch (initState p0 h0) sub1) sub2 := rfl
  have hns2 : sub2.id ∉ (processPost hashFn fetch (initState p0 h0) sub1).seen_post_ids := by
    rw [hs1]
    intro hmem
    rcases mem_insertUniq_iff.mp hmem with he | hp
    · exact hid (he.symm)
    · exact h2 hp
  have hs2 := processPost_all_dup hashFn fetch
    (processPost hashFn fetch (initState p0 h0) sub1) sub2 b hns2 hb2
    (by rw [hs1]; exact List.mem_cons_self _ _)
  rw [hrun, hs2, hs1]
  constructor
  · rfl
  · rfl

/-- Claim C4 (forward-progress invariant): after a post's loop iteration its
identifier is in the processed-post set, whatever the outcome (no candidates,
all fetches failing, all candidates duplicates — `processPost` is total and
every branch inserts the id); and a failed fetch skips exactly that one
candidate: the state is unchanged and processing continues with the sibling
candidates. -/
theorem forward_progress (hashFn : List Nat → String) (fetch : String → Option Response)
    (s : RunState) (sub : Submission) :
    sub.id ∈ (processPost hashFn fetch s sub).seen_post_ids ∧
    ∀ (pid : String) (s0 : RunState) (i : Nat) (u : String) (rest : List (Nat × String)),
      fetch u = none →
      processCandidates hashFn fetch pid s0 ((i, u) :: rest) =
        processCandidates hashFn fetch pid s0 rest :=
  ⟨processPost_mem_self hashFn fetch s sub,
   fun pid s0 i u rest hfu => processCandidates_cons_error hashFn fetch pid s0 i u rest hfu⟩

theorem toString_two : toString (2 : Nat) = "2" := rfl

theorem append_underscore_two (p e : String) :
    p ++ "_" ++ toString (2 : Nat) ++ e = p ++ "_2" ++ e := by
  rw [toString_two]
  have h2 : p ++ "_" ++ "2" = p ++ "_2" := by
    apply String.ext
    simp [String.data_append]
  rw [h2]

/-- Claim C10 (implicit filename indexing): the index in a saved artifact's
name is the candidate's 1-based position in the resolver's emitted list, not
a count of saved files.  When the first of two candidates fails (or is a
duplicate) and the second is saved, the only file saved for the post is
`{post_id}_2{ext}` — its index starts above 1. -/
theorem filename_index_is_position (hashFn : List Nat → String)
    (fetch : String → Option Response) (s : RunState) (sub : Submission)
    (u1 u2 : String) (r2 : Response)
    (hurls : get_image_urls_from_submission sub = [u1, u2])
    (hns : sub.id ∉ s.seen_post_ids)
    (hf1 : fetch u1 = none)
    (hf2 : fetch u2 = some r2)
    (hfresh : hashFn r2.body ∉ s.seen_hashes) :
    (processPost hashFn fetch s sub).files =
      s.files ++ [(sub.id ++ "_2" ++ extForDownload u2 r2, r2.body)] := by
  unfold processPost
  rw [if_neg hns]
  have hcond : ¬((get_image_urls_from_submission sub).isEmpty = true) := by
    rw [hurls]; exact Bool.false_ne_true
  rw [if_neg hcond, hurls]
  simp only [List.enumFrom]
  rw [processCandidates_cons_error hashFn fetch sub.id s 1 u1 _ hf1,
    processCandidates_cons_saved hashFn fetch sub.id s 2 u2 [] r2 hf2 hfresh]
  show s.files ++ [(sub.id ++ "_" ++ toString 2 ++ extForDownload u2 r2, r2.body)] =
    s.files ++ [(sub.id ++ "_2" ++ extForDownload u2 r2, r2.body)]
  rw [append_underscore_two]

/-! ### Lemmas about the filesystem model -/

theorem fslookup_fsremove_self : ∀ (fs : FS) (p : String),
    fslookup (fsremove fs p) p = none := by
  intro fs p
  induction fs with
  | nil => rfl
  | cons hd tl ih =>
    obtain ⟨a, c⟩ := hd
    show fslookup (if a = p then fsremove tl p else (a, c) :: fsremove tl p) p = none
    by_cases hap : a = p
    · rw [if_pos hap]; exact ih
    · rw [if_neg hap]
      show (if a = p then some c else fslookup (fsremove tl p) p) = none
      rw [if_neg hap]
      exact ih

theorem fslookup_fsremove_ne : ∀ (fs : FS) (p q : String), q ≠ p →
    fslookup (fsremove fs p) q = fslookup fs q := by
  intro fs p q hqp
  induction fs with
  | nil => rfl
  | cons hd tl ih =>
    obtain ⟨a, c⟩ := hd
    show fslookup (if a = p then fsremove tl p else (a, c) :: fsremove tl p) q =
      (if a = q then some c else fslookup tl q)
    by_cases hap : a = p
    · rw [if_pos hap]
      rw [if_neg (fun haq : a = q => hqp (haq ▸ hap ▸ rfl))]
      exact ih
    · rw [if_neg hap]
      show (if a = q then some c else fslookup (fsremove tl p) q) = _
      by_cases haq : a = q
      · rw [if_pos haq, if_pos haq]
      · rw [if_neg haq, if_neg haq]
        exact ih

theorem fslookup_fswrite_self (fs : FS) (p c : String) :
    fslookup (fswrite fs p c) p = some c := by
  show (if p = p then some c else _) = some c
  rw [if_pos rfl]

theorem fslookup_fswrite_ne (fs : FS) (p c q : String) (h : q ≠ p) :
    fslookup (fswrite fs p c) q = fslookup fs q := by
  show (if p = q then some c else fslookup (fsremove fs p) q) = _
  rw [if_neg (fun hpq : p = q => h hpq.symm)]
  exact fslookup_fsremove_ne fs p q h

theorem self_append_ne (s t : String) (h : t.length ≠ 0) : s ++ t ≠ s := by
  intro he
  have hl := congrArg String.length he
  rw [String.length_append] at hl
  omega

/-- Claim C8 (corrupt-state recovery): when the state file exists but fails
to parse, `load_state` returns the empty state and moves the corrupt file to
the `.corrupt` sidecar path, preserving its contents; the canonical path no
longer holds it.  `load_state` is a total function — no input raises. -/
theorem corrupt_state_recovery (parse : String → Option StoredState)
    (sp : String) (fs : FS) (c : String)
    (hex : fslookup fs sp = some c) (hbad : parse c = none) :
    (load_state parse sp fs).1 = emptyStoredState ∧
    fslookup (load_state parse sp fs).2 (sp ++ ".corrupt") = some c ∧
    fslookup (load_state parse sp fs).2 sp = none := by
  have hne : sp ≠ sp ++ ".corrupt" := (self_append_ne sp ".corrupt" (by decide)).symm
  simp only [load_state, hex, hbad, fsrename]
  refine ⟨trivial, fslookup_fswrite_self _ _ _, ?_⟩
  rw [fslookup_fswrite_ne _ _ _ _ hne]
  exact fslookup_fsremove_self fs sp

/-- Claim C9 (atomic persistence): `save_state` first writes the full
serialization to the temporary path and only then renames it onto the
canonical path.  Any write to the temporary path — partial or complete —
leaves the canonical path's contents untouched, so a crash before the rename
preserves the previous state file; after `save_state` completes, the
canonical path holds exactly the full serialization, never a partial one. -/
theorem save_state_atomic (ser : StoredState → String) (sp : String)
    (st : StoredState) (fs : FS) :
    (∀ partContent : String,
        fslookup (fswrite fs (sp ++ ".tmp") partContent) sp = fslookup fs sp) ∧
    fslookup (save_state ser sp st fs) sp = some (ser st) := by
  have hne : sp ≠ sp ++ ".tmp" := (self_append_ne sp ".tmp" (by decide)).symm
  constructor
  · intro partContent
    exact fslookup_fswrite_ne fs (sp ++ ".tmp") partContent sp hne
  · unfold save_state fsrename
    rw [fslookup_fswrite_self]
    exact fslookup_fswrite_self _ _ _

/-! ### Witnesses: each hypothesis-bearing claim theorem applied at a
concrete input. -/

/-- Witness for C2: a two-item gallery with http source URLs resolves to the
two decoded source URLs in order. -/
theorem gallery_resolver_priority_witness :
    get_image_urls_from_submission
      { id := "g1", is_gallery := true,
        media_metadata :=
          [("m1", { s := some { u := some "https://i.redd.it/a.jpg?x=1&amp;y=2" } }),
           ("m2", { s := some { u := some "https://i.redd.it/b.jpg" } })],
        gallery_data := some [{ media_id := "m1" }, { media_id := "m2" }],
        url := "", preview := some [{ sourceUrl := some "https://preview.redd.it/p.jpg" }] } =
      ["https://i.redd.it/a.jpg?x=1&y=2", "https://i.redd.it/b.jpg"] := by
  have h := gallery_resolver_priority
    { id := "g1", is_gallery := true,
      media_metadata :=
        [("m1", { s := some { u := some "https://i.redd.it/a.jpg?x=1&amp;y=2" } }),
         ("m2", { s := some { u := some "https://i.redd.it/b.jpg" } })],
      gallery_data := some [{ media_id := "m1" }, { media_id := "m2" }],
      url := "", preview := some [{ sourceUrl := some "https://preview.redd.it/p.jpg" }] }
    [{ media_id := "m1" }, { media_id := "m2" }]
    ["https://i.redd.it/a.jpg?x=1&amp;y=2", "https://i.redd.it/b.jpg"]
    rfl rfl rfl (by decide) (by decide) (by decide) (by decide)
  rw [h]
  decide

/-- Witness for C3: two single-image posts serving the same bytes yield one
saved file and one new digest. -/
theorem content_dedupe_single_file_witness :
    (runPipeline (fun l => toString l.length)
        (fun _ => some { body := [9, 9], contentType := "image/png" })
        [{ id := "p1", is_gallery := false, media_metadata := [], gallery_data := none,
           url := "https://i.redd.it/a.jpg", preview := none },
         { id := "p2", is_gallery := false, media_metadata := [], gallery_data := none,
           url := "https://i.redd.it/b.jpg", preview := none }] [] []).files.length = 1 ∧
    (runPipeline (fun l => toString l.length)
        (fun _ => some { body := [9, 9], contentType := "image/png" })
        [{ id := "p1", is_gallery := false, media_metadata := [], gallery_data := none,
           url := "https://i.redd.it/a.jpg", preview := none },
         { id := "p2", is_gallery := false, media_metadata := [], gallery_data := none,
           url := "https://i.redd.it/b.jpg", preview := none }] [] []).seen_hashes =
      (fun l : List Nat => toString l.length) [9, 9] :: [] :=
  content_dedupe_single_file (fun l => toString l.length)
    (fun _ => some { body := [9, 9], contentType := "image/png" })
    { id := "p1", is_gallery := false, media_metadata := [], gallery_data := none,
      url := "https://i.redd.it/a.jpg", preview := none }
    { id := "p2", is_gallery := false, media_metadata := [], gallery_data := none,
      url := "https://i.redd.it/b.jpg", preview := none }
    [9, 9] [] [] (by decide) (List.not_mem_nil _) (List.not_mem_nil _) (by decide)
    (fun u _ => ⟨{ body := [9, 9], contentType := "image/png" }, rfl, rfl⟩)
    (fun u _ => ⟨{ body := [9, 9], contentType := "image/png" }, rfl, rfl⟩)
    (List.not_mem_nil _)

/-- Witness for C4: a fresh post's id is recorded after its iteration, and a
candidate whose fetch fails is skipped without touching the state. -/
theorem forward_progress_witness :
    "a1" ∈ (processPost (fun _ => "h") (fun _ => none) (initState [] [])
        { id := "a1", is_gallery := false, media_metadata := [], gallery_data := none,
          url := "", preview := none }).seen_post_ids ∧
    processCandidates (fun _ => "h") (fun _ => none) "a1" (initState [] []) [(1, "u")] =
      processCandidates (fun _ => "h") (fun _ => none) "a1" (initState [] []) [] := by
  have h := forward_progress (fun _ => "h") (fun _ => none) (initState [] [])
    { id := "a1", is_gallery := false, media_metadata := [], gallery_data := none,
      url := "", preview := none }
  exact ⟨h.1, h.2 "a1" (initState [] []) 1 "u" [] rfl⟩

/-- Witness for C5: a non-gallery external post with a preview resolves to
exactly the first available (decoded) preview source URL. -/
theorem resolver_fallback_chain_witness :
    ∃ s, specFirstPreviewSource
        [{ sourceUrl := none },
         { sourceUrl := some "https://preview.redd.it/p.jpg?w=1&amp;s=2" }] = some s ∧
      get_image_urls_from_submission
        { id := "p5", is_gallery := false, media_metadata := [], gallery_data := none,
          url := "https://example.com/page",
          preview := some [{ sourceUrl := none },
            { sourceUrl := some "https://preview.redd.it/p.jpg?w=1&amp;s=2" }] } =
        [replaceAmp s] :=
  resolver_fallback_chain
    { id := "p5", is_gallery := false, media_metadata := [], gallery_data := none,
      url := "https://example.com/page",
      preview := some [{ sourceUrl := none },
        { sourceUrl := some "https://preview.redd.it/p.jpg?w=1&amp;s=2" }] }
    [{ sourceUrl := none }, { sourceUrl := some "https://preview.redd.it/p.jpg?w=1&amp;s=2" }]
    rfl (by decide) (by decide) rfl
    ⟨{ sourceUrl := some "https://preview.redd.it/p.jpg?w=1&amp;s=2" }, by decide,
      "https://preview.redd.it/p.jpg?w=1&amp;s=2", rfl, by decide⟩

/-- Witness for C6: two size variants of one native-host image canonicalize
identically and collapse to the first occurrence. -/
theorem canonical_dedupe_collapse_witness :
    _normalize_reddit_image_url "https://i.redd.it/a.jpg?width=100" =
      _normalize_reddit_image_url "https://i.redd.it/a.jpg?width=200" ∧
    dedupUrls ["https://i.redd.it/a.jpg?width=100", "https://i.redd.it/a.jpg?width=200"] =
      ["https://i.redd.it/a.jpg?width=100"] :=
  canonical_dedupe_collapse "https://i.redd.it/a.jpg?width=100"
    "https://i.redd.it/a.jpg?width=200" (by decide) (by decide) (by decide) (by decide)

/-- Witness for the amended C7: a gallery-emitted URL is the raw source
string with one decoding pass applied. -/
theorem amp_decode_amended_witness :
    "http://i.redd.it/g.jpg?a=1&b=2" =
      (Submission.mk "g7" true [("m", { s := some { u := some "http://i.redd.it/g.jpg?a=1&amp;b=2" } })]
        (some [{ media_id := "m" }]) "" none).url ∨
    ∃ s, (s ∈ galleryRawSources
          (Submission.mk "g7" true [("m", { s := some { u := some "http://i.redd.it/g.jpg?a=1&amp;b=2" } })]
            (some [{ media_id := "m" }]) "" none) ∨
        s ∈ previewRawSources
          (Submission.mk "g7" true [("m", { s := some { u := some "http://i.redd.it/g.jpg?a=1&amp;b=2" } })]
            (some [{ media_id := "m" }]) "" none)) ∧
      "http://i.redd.it/g.jpg?a=1&b=2" = replaceAmp s :=
  amp_decode_amended
    (Submission.mk "g7" true [("m", { s := some { u := some "http://i.redd.it/g.jpg?a=1&amp;b=2" } })]
      (some [{ media_id := "m" }]) "" none)
    "http://i.redd.it/g.jpg?a=1&b=2" (by decide)

/-- Witness for C8: a one-file filesystem whose state file does not parse. -/
theorem corrupt_state_recovery_witness :
    (load_state (fun _ => none) "state.json" [("state.json", "not json")]).1 =
      emptyStoredState ∧
    fslookup (load_state (fun _ => none) "state.json" [("state.json", "not json")]).2
      ("state.json" ++ ".corrupt") = some "not json" ∧
    fslookup (load_state (fun _ => none) "state.json" [("state.json", "not json")]).2
      "state.json" = none :=
  corrupt_state_recovery (fun _ => none) "state.json" [("state.json", "not json")]
    "not json" (by decide) rfl

/-- Witness for C10: first candidate's fetch fails, second is saved — the one
saved file carries index 2. -/
theorem filename_index_is_position_witness :
    (processPost (fun l => toString l.length)
        (fun u => if u = "http://i.redd.it/b.jpg" then
            some { body := [7], contentType := "" } else none)
        (initState [] [])
        { id := "pX", is_gallery := true,
          media_metadata :=
            [("m1", { s := some { u := some "http://i.redd.it/a.jpg" } }),
             ("m2", { s := some { u := some "http://i.redd.it/b.jpg" } })],
          gallery_data := some [{ media_id := "m1" }, { media_id := "m2" }],
          url := "", preview := none }).files =
      (initState [] []).files ++
        [("pX" ++ "_2" ++ extForDownload "http://i.redd.it/b.jpg"
            { body := [7], contentType := "" }, [7])] :=
  filename_index_is_position (fun l => toString l.length)
    (fun u => if u = "http://i.redd.it/b.jpg" then
        some { body := [7], contentType := "" } else none)
    (initState [] [])
    { id := "pX", is_gallery := true,
      media_metadata :=
        [("m1", { s := some { u := some "http://i.redd.it/a.jpg" } }),
         ("m2", { s := some { u := some "http://i.redd.it/b.jpg" } })],
      gallery_data := some [{ media_id := "m1" }, { media_id := "m2" }],
      url := "", preview := none }
    "http://i.redd.it/a.jpg" "http://i.redd.it/b.jpg" { body := [7], contentType := "" }
    (by decide) (List.not_mem_nil _) (by decide) (by decide) (List.not_mem_nil _)

end Scraper
